import Mathlib

/-!
Verification development for a React render-memoization demo repository.

The repository consists of:
* `Component1` (div-wrapped, `src/unnamed/part_000`) and a fragment-wrapped
  variant (`src/unnamed/part_002`): leaf components rendering a label and
  `"Name: " ++ name`, wrapped in `React.memo`.
* `Component2`, one-prop variant (`src/unnamed/part_001`): renders a label and
  `"Surname: " ++ surname`, wrapped in `React.memo`.
* `Component2`, three-prop variants (div-wrapped in `src/unnamed/part_001`,
  fragment-wrapped in
  `src/1-avoid-unnecessary-render-in-react-plus-hooks/app/src/components/Component2.tsx`):
  props `surname`, `data`, `func`; renders label, `"Surname: " ++ surname` and
  `"Data: " ++ JSON.stringify(data)`; never calls `func`.
* `Home` (`src/unnamed/part_001`): root owning `name` and `surname` state cells
  (both initialised to `''` via `useState`), two inputs whose change handlers
  call `setName` / `setSurname`, passing props down to the leaves.  The blog
  narrative (`src/unnamed/part_003`) contains the naive variant (structured
  props `data` / `func` freshly allocated on every root render) and the
  optimized variant (`data = useMemo(() => ({ surname }), [surname])`,
  `func = useCallback(() => undefined, [])`).

The embedding models JavaScript reference identity of objects and functions by
natural-number allocation ids, `React.memo` by a single-slot guard performing
the documented shallow prop comparison (primitives by value, structured props
by reference id), `useState` by explicit state passing, and `useMemo` /
`useCallback` by their single-slot dependency-keyed caches.
-/

/-- Reference identity of a JavaScript object or function value: each fresh
allocation gets a distinct id, and shallow comparison of structured props
compares these ids. -/
abbrev Ref := Nat

/-- Contents of a `data` prop: a flat record with string fields (the app only
ever stores `{}` or `{ surname }` in it). -/
abbrev DataObj := List (String × String)

/-- Escape of a character for a JSON string literal, modelling the JS builtin
behaviour on the quote and backslash characters. -/
def jsonEscapeChar (acc : String) (c : Char) : String :=
  if c = '\\' then acc ++ "\\\\"
  else if c = '"' then acc ++ "\\\""
  else acc.push c

/-- Escape of a whole string for a JSON string literal, character by
character. -/
def jsonEscape (s : String) : String :=
  s.data.foldl jsonEscapeChar ""

/-- Serialisation of one record field as `"key":"value"`. -/
def jsonField (f : String × String) : String :=
  "\"" ++ jsonEscape f.1 ++ "\":\"" ++ jsonEscape f.2 ++ "\""

/-- Model of the JS builtin `JSON.stringify` restricted to flat string-valued
records, the only shape the app ever places in the `data` prop. -/
def jsonStringify (d : DataObj) : String :=
  "\x7b" ++ String.intercalate "," (d.map jsonField) ++ "\x7d"

/-- Wrapper element of a component's returned JSX tree: a `<div>` or a
fragment `<>`. -/
inductive Wrapper where
  | div
  | fragment
deriving DecidableEq, Repr

/-- One child element of the returned JSX: its tag (`label` or `p`) and its
text content. -/
structure Node where
  tag : String
  text : String
deriving DecidableEq, Repr

/-- Rendered output of one leaf component: the wrapper element and its
children in order. -/
structure RenderedTree where
  wrapper : Wrapper
  children : List Node
deriving DecidableEq, Repr

/-- Render function of `Component1` from `src/unnamed/part_000`: a `<div>`
holding `<label>Component1: </label>` and `<p>Name: {name}</p>`. -/
def component1Render (name : String) : RenderedTree :=
  ⟨.div, [⟨"label", "Component1: "⟩, ⟨"p", "Name: " ++ name⟩]⟩

/-- Render function of the fragment-based `Component1` from
`src/unnamed/part_002`: same children inside a fragment `<>`. -/
def component1FragmentRender (name : String) : RenderedTree :=
  ⟨.fragment, [⟨"label", "Component1: "⟩, ⟨"p", "Name: " ++ name⟩]⟩

/-- Render function of the one-prop `Component2` from `src/unnamed/part_001`:
a `<div>` holding `<label>Component2: </label>` and
`<p>Surname: {surname}</p>`. -/
def component2Render (surname : String) : RenderedTree :=
  ⟨.div, [⟨"label", "Component2: "⟩, ⟨"p", "Surname: " ++ surname⟩]⟩

/-- Prop set of the three-prop `Component2` variants: the primitive `surname`,
the structured `data` (reference id plus contents behind that reference) and
the `func` callback (reference id only; it is never invoked). -/
structure Component2Props where
  surname : String
  dataRef : Ref
  dataVal : DataObj
  funcRef : Ref
deriving DecidableEq, Repr

/-- Render function of the div-based three-prop `Component2` from
`src/unnamed/part_001`: label, surname line and
`<p>Data: {JSON.stringify(data)}</p>` inside a `<div>`. -/
def component2ThreeDivRender (p : Component2Props) : RenderedTree :=
  ⟨.div, [⟨"label", "Component2: "⟩, ⟨"p", "Surname: " ++ p.surname⟩,
          ⟨"p", "Data: " ++ jsonStringify p.dataVal⟩]⟩

/-- Render function of the fragment-based three-prop `Component2` from
`src/1-avoid-unnecessary-render-in-react-plus-hooks/app/src/components/Component2.tsx`:
same children inside a fragment `<>`. -/
def component2ThreeFragmentRender (p : Component2Props) : RenderedTree :=
  ⟨.fragment, [⟨"label", "Component2: "⟩, ⟨"p", "Surname: " ++ p.surname⟩,
               ⟨"p", "Data: " ++ jsonStringify p.dataVal⟩]⟩

/-- Observable side effects of one invocation of a component's render
function: the `console.log` lines it emits and the reference ids of the
callbacks it invokes during the render. -/
structure RenderEffect where
  log : List String
  invoked : List Ref
deriving DecidableEq, Repr

/-- Full model of one invocation of the fragment-based three-prop
`Component2` body: it logs `Component2 :: render` with all three props
(so the diagnostic log does see `func`), invokes no callback, and returns the
rendered tree. -/
def component2ThreeRenderFull (p : Component2Props) : RenderedTree × RenderEffect :=
  (component2ThreeFragmentRender p,
   ⟨["Component2 :: render surname=" ++ p.surname ++ " data=#" ++ toString p.dataRef ++
     " func=#" ++ toString p.funcRef], []⟩)

/-- Model of `React.memo` applied to a component: the wrapped render function
together with the shallow prop comparison the guard performs (primitives by
value, structured props by reference id). -/
structure MemoComp (P O : Type) where
  render : P → O
  propsEq : P → P → Bool

/-- Mounted instance of a memoized component: the previously supplied prop set
with the output produced for it (absent before the first render), and the
number of times the render function has executed. -/
structure MemoInst (P O : Type) where
  prev : Option (P × O)
  renders : Nat
deriving Repr

variable {P O : Type}

/-- Instance state before the first render. -/
def emptyInst : MemoInst P O := ⟨none, 0⟩

/-- One reconciliation of a memoized component with a freshly supplied prop
set `p`: if the previous props compare shallowly equal to `p` the render is
skipped and the previous output reused, otherwise the render function runs. -/
def memoStep (c : MemoComp P O) (i : MemoInst P O) (p : P) : MemoInst P O :=
  match i.prev with
  | some (q, o) =>
      if c.propsEq q p then ⟨some (q, o), i.renders⟩
      else ⟨some (p, c.render p), i.renders + 1⟩
  | none => ⟨some (p, c.render p), i.renders + 1⟩

/-- Currently displayed output of a mounted memoized component. -/
def display (i : MemoInst P O) : Option O := i.prev.map Prod.snd

/-- The memoized `Component1` of `src/unnamed/part_000`: one string prop,
compared by value. -/
def component1Comp : MemoComp String RenderedTree :=
  ⟨component1Render, fun q p => decide (q = p)⟩

/-- The memoized one-prop `Component2` of `src/unnamed/part_001`: one string
prop, compared by value. -/
def component2Comp : MemoComp String RenderedTree :=
  ⟨component2Render, fun q p => decide (q = p)⟩

/-- The memoized three-prop `Component2` (final variant of the narrative):
shallow comparison checks `surname` by value and `data` / `func` by reference
id only — it never looks inside the structures. -/
def component2ThreeComp : MemoComp Component2Props RenderedTree :=
  ⟨component2ThreeDivRender,
   fun q p => decide (q.surname = p.surname ∧ q.dataRef = p.dataRef ∧ q.funcRef = p.funcRef)⟩

/-- The memoized fragment-based three-prop `Component2` of
`src/1-avoid-unnecessary-render-in-react-plus-hooks/app/src/components/Component2.tsx`,
with the same shallow comparison: `surname` by value, `data` / `func` by
reference id only. -/
def component2ThreeFragComp : MemoComp Component2Props RenderedTree :=
  ⟨component2ThreeFragmentRender,
   fun q p => decide (q.surname = p.surname ∧ q.dataRef = p.dataRef ∧ q.funcRef = p.funcRef)⟩

/-- Ref-consistency of a sequence of three-prop supplies: the sequence
represents a real JavaScript history, in which a reference id determines the
object contents behind it — any two supplied prop sets presenting the same
`data` reference hold the same contents.  The apps satisfy this by
construction: no `data` object is ever mutated after allocation. -/
def RefConsistent (l : List Component2Props) : Prop :=
  ∀ q ∈ l, ∀ q' ∈ l, q.dataRef = q'.dataRef → q.dataVal = q'.dataVal

/-- The two state cells of the root component `Home`
(`src/unnamed/part_001`): `const [name, setName] = useState('')` and
`const [surname, setSurname] = useState('')`. -/
structure HomeState where
  name : String
  surname : String
deriving DecidableEq, Repr

/-- Input events of the demo page: a change event of the name input or of the
surname input, carrying the input's new string value. -/
inductive Event where
  | editName (v : String)
  | editSurname (v : String)
deriving DecidableEq, Repr

/-- The root's change handlers: `(e) => setName(e.target.value)` on the name
input and `(e) => setSurname(e.target.value)` on the surname input.  Each one
writes exactly its own state cell. -/
def handleEvent (s : HomeState) : Event → HomeState
  | .editName v => { s with name := v }
  | .editSurname v => { s with surname := v }

/-- Contents of the optimized `data` object: `useMemo(() => ({ surname }),
[surname])` builds the record `{ surname }`. -/
def dataContents (surname : String) : DataObj := [("surname", surname)]

/-- The live one-prop application of `src/unnamed/part_001`: `Home` state plus
the mounted memoized `Component1` and one-prop `Component2`. -/
structure SimpleApp where
  st : HomeState
  c1 : MemoInst String RenderedTree
  c2 : MemoInst String RenderedTree
deriving Repr

/-- Mount of the one-prop app: both state cells start empty and the initial
root render supplies `name` and `surname` to the two leaves. -/
def simpleMount : SimpleApp :=
  let st : HomeState := ⟨"", ""⟩
  { st
    c1 := memoStep component1Comp emptyInst st.name
    c2 := memoStep component2Comp emptyInst st.surname }

/-- One input event in the one-prop app: the handler updates the state, the
root re-evaluates, and each leaf's memo guard reconciles with its fresh
prop. -/
def simpleStep (a : SimpleApp) (e : Event) : SimpleApp :=
  let st := handleEvent a.st e
  { st
    c1 := memoStep component1Comp a.c1 st.name
    c2 := memoStep component2Comp a.c2 st.surname }

/-- Run of the one-prop app: mount followed by a sequence of input events. -/
def simpleRun (es : List Event) : SimpleApp :=
  es.foldl simpleStep simpleMount

/-- The optimized three-prop application (final code of the narrative):
`Home` state, the next fresh allocation id, the `useMemo` single-slot cache
(remembered dependency `surname` and the cached object's reference), the
`useCallback` cached function reference, and the two mounted leaves. -/
structure OptApp where
  st : HomeState
  fresh : Ref
  memoDep : String
  memoRef : Ref
  cbRef : Ref
  c1 : MemoInst String RenderedTree
  c2 : MemoInst Component2Props RenderedTree
deriving Repr

/-- Mount of the optimized app: empty state cells; `useMemo` allocates the
first `{ surname }` object and records the dependency; `useCallback` allocates
the no-op callback once; both leaves render for the first time. -/
def optMount : OptApp :=
  let st : HomeState := ⟨"", ""⟩
  let dataRef : Ref := 0
  let cbRef : Ref := 1
  { st, fresh := 2, memoDep := st.surname, memoRef := dataRef, cbRef
    c1 := memoStep component1Comp emptyInst st.name
    c2 := memoStep component2ThreeComp emptyInst
            ⟨st.surname, dataRef, dataContents st.surname, cbRef⟩ }

/-- One input event in the optimized app: handler updates state; on the root
re-evaluation `useMemo` returns the cached object reference when the
`[surname]` dependency is unchanged and otherwise allocates a fresh `{
surname }`; `useCallback` with `[]` always returns the mount-time reference;
the memo guards then reconcile. -/
def optStep (a : OptApp) (e : Event) : OptApp :=
  if a.memoDep = (handleEvent a.st e).surname then
    { st := handleEvent a.st e, fresh := a.fresh,
      memoDep := (handleEvent a.st e).surname, memoRef := a.memoRef, cbRef := a.cbRef
      c1 := memoStep component1Comp a.c1 (handleEvent a.st e).name
      c2 := memoStep component2ThreeComp a.c2
              ⟨(handleEvent a.st e).surname, a.memoRef,
               dataContents (handleEvent a.st e).surname, a.cbRef⟩ }
  else
    { st := handleEvent a.st e, fresh := a.fresh + 1,
      memoDep := (handleEvent a.st e).surname, memoRef := a.fresh, cbRef := a.cbRef
      c1 := memoStep component1Comp a.c1 (handleEvent a.st e).name
      c2 := memoStep component2ThreeComp a.c2
              ⟨(handleEvent a.st e).surname, a.fresh,
               dataContents (handleEvent a.st e).surname, a.cbRef⟩ }

/-- Run of the optimized app: mount followed by a sequence of input events. -/
def optRun (es : List Event) : OptApp :=
  es.foldl optStep optMount

/-- The naive three-prop application (the defect the narrative reproduces):
the root passes `data={{}}` and `func={() => undefined}` literally in the
JSX, so both structured props are freshly allocated on every root render. -/
structure NaiveApp where
  st : HomeState
  fresh : Ref
  c1 : MemoInst String RenderedTree
  c2 : MemoInst Component2Props RenderedTree
deriving Repr

/-- Mount of the naive app: empty state cells; the initial root render
allocates the first `{}` object and the first callback. -/
def naiveMount : NaiveApp :=
  let st : HomeState := ⟨"", ""⟩
  { st, fresh := 2
    c1 := memoStep component1Comp emptyInst st.name
    c2 := memoStep component2ThreeComp emptyInst ⟨st.surname, 0, [], 1⟩ }

/-- One input event in the naive app: every root re-evaluation allocates a
fresh `{}` object and a fresh `() => undefined` callback before the memo
guards reconcile. -/
def naiveStep (a : NaiveApp) (e : Event) : NaiveApp :=
  let st := handleEvent a.st e
  { st, fresh := a.fresh + 2
    c1 := memoStep component1Comp a.c1 st.name
    c2 := memoStep component2ThreeComp a.c2 ⟨st.surname, a.fresh, [], a.fresh + 1⟩ }

/-- Run of the naive app: mount followed by a sequence of input events. -/
def naiveRun (es : List Event) : NaiveApp :=
  es.foldl naiveStep naiveMount

/-- Compatibility of a memoized component: its shallow prop comparison only
identifies prop sets on which the render function agrees, so a skipped render
can never change what should be displayed. -/
def Compat (c : MemoComp P O) : Prop :=
  ∀ q p, c.propsEq q p = true → c.render q = c.render p

/-- Coherence of a mounted instance: the stored output is exactly the render
of the stored props. -/
def Coherent (c : MemoComp P O) (i : MemoInst P O) : Prop :=
  ∀ q o, i.prev = some (q, o) → o = c.render q

theorem coherent_empty (c : MemoComp P O) : Coherent c emptyInst := by
  intro q o h
  simp [emptyInst] at h

theorem memoStep_coherent {c : MemoComp P O} {i : MemoInst P O}
    (hc : Coherent c i) (p : P) : Coherent c (memoStep c i p) := by
  intro q o h
  rcases hp : i.prev with _ | ⟨q', o'⟩
  · simp [memoStep, hp] at h
    rw [← h.1, ← h.2]
  · by_cases he : c.propsEq q' p = true
    · simp [memoStep, hp, he] at h
      rw [← h.1, ← h.2]
      exact hc q' o' hp
    · simp [memoStep, hp, he] at h
      rw [← h.1, ← h.2]

theorem memoStep_display {c : MemoComp P O} (hcompat : Compat c)
    {i : MemoInst P O} (hc : Coherent c i) (p : P) :
    display (memoStep c i p) = some (c.render p) := by
  rcases hp : i.prev with _ | ⟨q, o⟩
  · simp [memoStep, display, hp]
  · by_cases he : c.propsEq q p = true
    · have ho : o = c.render q := hc q o hp
      simp [memoStep, display, hp, he, ho, hcompat q p he]
    · simp [memoStep, display, hp, he]

theorem memoStep_skip {c : MemoComp P O} {i : MemoInst P O} {q : P} {o : O} {p : P}
    (hp : i.prev = some (q, o)) (he : c.propsEq q p = true) :
    memoStep c i p = i := by
  cases i with
  | mk prev renders => simp_all [memoStep]

theorem memoStep_rerender {c : MemoComp P O} {i : MemoInst P O} {q : P} {o : O} {p : P}
    (hp : i.prev = some (q, o)) (he : c.propsEq q p = false) :
    memoStep c i p = ⟨some (p, c.render p), i.renders + 1⟩ := by
  simp [memoStep, hp, he]

theorem compat_component1 : Compat component1Comp := by
  intro q p h
  simp [component1Comp] at h ⊢
  rw [h]

theorem compat_component2 : Compat component2Comp := by
  intro q p h
  simp [component2Comp] at h ⊢
  rw [h]

theorem foldl_coherent {c : MemoComp P O} {i : MemoInst P O} (hc : Coherent c i)
    (ps : List P) : Coherent c (ps.foldl (memoStep c) i) := by
  induction ps generalizing i with
  | nil => exact hc
  | cons p ps ih => exact ih (memoStep_coherent hc p)

theorem foldl_prev_mem {c : MemoComp P O} (l : List P) (i : MemoInst P O) (S : List P)
    (hi : ∀ q o, i.prev = some (q, o) → q ∈ S) (hl : ∀ p ∈ l, p ∈ S) :
    ∀ q o, (l.foldl (memoStep c) i).prev = some (q, o) → q ∈ S := by
  induction l generalizing i with
  | nil => exact hi
  | cons p l ih =>
      refine ih (memoStep c i p) ?_ (fun p' hp' => hl p' (List.mem_cons_of_mem _ hp'))
      intro q o h
      rcases hp : i.prev with _ | ⟨q', o'⟩
      · rw [memoStep, hp] at h
        simp only [Option.some.injEq, Prod.mk.injEq] at h
        exact h.1 ▸ hl p (List.mem_cons_self p l)
      · by_cases he : c.propsEq q' p = true
        · rw [memoStep_skip hp he] at h
          exact hi q o h
        · rw [memoStep_rerender hp (Bool.not_eq_true _ ▸ he)] at h
          simp only [Option.some.injEq, Prod.mk.injEq] at h
          exact h.1 ▸ hl p (List.mem_cons_self p l)

theorem foldl_display_last {c : MemoComp P O} (ps : List P) (p : P)
    (hsound : ∀ q ∈ ps, c.propsEq q p = true → c.render q = c.render p) :
    display ((ps ++ [p]).foldl (memoStep c) emptyInst) = some (c.render p) := by
  rw [List.foldl_append, List.foldl_cons, List.foldl_nil]
  have hcoh : Coherent c (ps.foldl (memoStep c) emptyInst) :=
    foldl_coherent (coherent_empty _) ps
  have hmem : ∀ q o, (ps.foldl (memoStep c) emptyInst).prev = some (q, o) → q ∈ ps :=
    foldl_prev_mem ps emptyInst ps (by intro q o h; simp [emptyInst] at h) (fun _ h => h)
  rcases hp : (ps.foldl (memoStep c) emptyInst).prev with _ | ⟨q, o⟩
  · simp [memoStep, display, hp]
  · by_cases he : c.propsEq q p = true
    · have ho : o = c.render q := hcoh q o hp
      simp [memoStep, display, hp, he, ho, hsound q (hmem q o hp) he]
    · simp [memoStep, display, hp, he]

theorem refConsistent_forces_eq {l : List Component2Props} {p : Component2Props}
    (h : RefConsistent (l ++ [p])) :
    ∀ q ∈ l, q.surname = p.surname ∧ q.dataRef = p.dataRef ∧ q.funcRef = p.funcRef →
      q = p := by
  intro q hq hf
  obtain ⟨h1, h2, h3⟩ := hf
  have hdv : q.dataVal = p.dataVal :=
    h q (List.mem_append_left _ hq)
      p (List.mem_append_right _ (List.mem_singleton_self p)) h2
  cases q
  cases p
  simp_all

/-- C1: for every leaf display unit (`Component1`, one-prop `Component2`, and
both three-prop `Component2` variants) and every sequence of prop updates —
ref-consistent for the three-prop units, since in JavaScript a `data`
reference determines the object contents behind it — the displayed output
after the last update is exactly the render of the current (last supplied)
prop values: the `React.memo` guard only skips renders whose props are
shallowly equal to the previous ones, so the displayed name/surname/data text
is never stale with respect to a prop value that actually changed. -/
theorem memo_leaves_never_stale :
    ∀ (ps : List String) (p : String) (qs : List Component2Props) (q : Component2Props),
      RefConsistent (qs ++ [q]) →
      display ((ps ++ [p]).foldl (memoStep component1Comp) emptyInst) =
        some (component1Render p) ∧
      display ((ps ++ [p]).foldl (memoStep component2Comp) emptyInst) =
        some (component2Render p) ∧
      display ((qs ++ [q]).foldl (memoStep component2ThreeComp) emptyInst) =
        some (component2ThreeDivRender q) ∧
      display ((qs ++ [q]).foldl (memoStep component2ThreeFragComp) emptyInst) =
        some (component2ThreeFragmentRender q) := by
  intro ps p qs q href
  refine ⟨?_, ?_, ?_, ?_⟩
  · exact foldl_display_last ps p (fun r _ he => compat_component1 r p he)
  · exact foldl_display_last ps p (fun r _ he => compat_component2 r p he)
  · refine foldl_display_last qs q ?_
    intro r hr he
    have hf : r.surname = q.surname ∧ r.dataRef = q.dataRef ∧ r.funcRef = q.funcRef :=
      of_decide_eq_true he
    rw [refConsistent_forces_eq href r hr hf]
  · refine foldl_display_last qs q ?_
    intro r hr he
    have hf : r.surname = q.surname ∧ r.dataRef = q.dataRef ∧ r.funcRef = q.funcRef :=
      of_decide_eq_true he
    rw [refConsistent_forces_eq href r hr hf]

/-- Witness for C1 at concrete inputs: the two-step three-prop history
supplying `{ surname: "" }` as reference 0 and then `{ surname: "D" }` as
reference 2 is ref-consistent, and after it the div-based three-prop
`Component2` displays exactly the render of the current props. -/
theorem memo_leaves_never_stale_witness :
    RefConsistent (([⟨"", 0, dataContents "", 1⟩] : List Component2Props) ++
      ([⟨"D", 2, dataContents "D", 1⟩] : List Component2Props)) ∧
    display ((([⟨"", 0, dataContents "", 1⟩] : List Component2Props) ++
        ([⟨"D", 2, dataContents "D", 1⟩] : List Component2Props)).foldl
          (memoStep component2ThreeComp) emptyInst) =
      some (component2ThreeDivRender ⟨"D", 2, dataContents "D", 1⟩) :=
  ⟨by unfold RefConsistent; decide,
   (memo_leaves_never_stale ["", "A"] "AB"
      [⟨"", 0, dataContents "", 1⟩] ⟨"D", 2, dataContents "D", 1⟩
      (by unfold RefConsistent; decide)).2.2.1⟩

/-- C7: the root's input handlers satisfy the frame property: a keystroke in
the name input producing value `v` yields state `(v, surname)` with the
surname cell untouched, and a keystroke in the surname input yields
`(name, v)` with the name cell untouched. -/
theorem handlers_frame :
    ∀ (st : HomeState) (v : String),
      handleEvent st (.editName v) = ⟨v, st.surname⟩ ∧
      handleEvent st (.editSurname v) = ⟨st.name, v⟩ := by
  intro st v
  exact ⟨rfl, rfl⟩

/-- C6: idempotence of the memoization guard: supplying the same prop set
(with identical reference ids for the structured props) twice in succession to
the memoized `Component1` or three-prop `Component2`, starting from a fresh
mount, executes the render function exactly once; the second reconciliation is
skipped by the shallow comparison. -/
theorem memo_idempotent :
    ∀ (p : String) (q : Component2Props),
      (memoStep component1Comp emptyInst p).renders = 1 ∧
      (memoStep component1Comp (memoStep component1Comp emptyInst p) p).renders = 1 ∧
      (memoStep component2ThreeComp emptyInst q).renders = 1 ∧
      (memoStep component2ThreeComp
        (memoStep component2ThreeComp emptyInst q) q).renders = 1 := by
  intro p q
  refine ⟨rfl, ?_, rfl, ?_⟩
  · simp [memoStep, emptyInst, component1Comp]
  · simp [memoStep, emptyInst, component2ThreeComp]

/-- C9: the three-prop `Component2` never invokes its `func` callback, and its
rendered output is independent of `func`: for any two callback references the
rendered trees coincide (for the fragment-based file variant and the div-based
variant alike); `func` can only show up in the diagnostic log and in the memo
comparison, never in the display. -/
theorem func_noninterference :
    ∀ (sn : String) (dr : Ref) (dv : DataObj) (f1 f2 : Ref),
      (component2ThreeRenderFull ⟨sn, dr, dv, f1⟩).1 =
        (component2ThreeRenderFull ⟨sn, dr, dv, f2⟩).1 ∧
      (component2ThreeRenderFull ⟨sn, dr, dv, f1⟩).2.invoked = [] ∧
      component2ThreeDivRender ⟨sn, dr, dv, f1⟩ =
        component2ThreeDivRender ⟨sn, dr, dv, f2⟩ := by
  intro sn dr dv f1 f2
  exact ⟨rfl, rfl, rfl⟩

/-- C10: the paired before/after variants of each leaf are render-equivalent
up to the wrapper element: the fragment-based and div-based `Component1`
produce the same children (`Component1: `, `Name: ` ++ name), and the
fragment-based and div-based three-prop `Component2` produce the same children
(`Component2: `, `Surname: ` ++ surname, `Data: ` ++ JSON.stringify(data)). -/
theorem variants_render_equivalent :
    ∀ (name : String) (p : Component2Props),
      (component1Render name).children = (component1FragmentRender name).children ∧
      (component1Render name).children =
        [⟨"label", "Component1: "⟩, ⟨"p", "Name: " ++ name⟩] ∧
      (component2ThreeFragmentRender p).children = (component2ThreeDivRender p).children ∧
      (component2ThreeFragmentRender p).children =
        [⟨"label", "Component2: "⟩, ⟨"p", "Surname: " ++ p.surname⟩,
         ⟨"p", "Data: " ++ jsonStringify p.dataVal⟩] := by
  intro name p
  exact ⟨rfl, rfl, rfl, rfl⟩

/-- C3: in the optimized app, typing the surname `Doe` character by character
(values `D`, `Do`, `Doe`) makes `Component2`'s render function run exactly 3
more times than at mount — once per distinct surname value. -/
theorem surname_typing_three_renders :
    (optRun [.editSurname "D", .editSurname "Do", .editSurname "Doe"]).c2.renders =
      (optRun []).c2.renders + 3 := by
  rfl

/-- Props the optimized root supplies to `Component2` in a state where the
`useMemo` cache agrees with the current surname. -/
def optProps (a : OptApp) : Component2Props :=
  ⟨a.st.surname, a.memoRef, dataContents a.st.surname, a.cbRef⟩

/-- Invariant of the optimized app: the `useMemo` cache remembers the current
surname, and `Component2`'s previous props are exactly the props the root
currently supplies. -/
def OptInv (a : OptApp) : Prop :=
  a.memoDep = a.st.surname ∧ ∃ o, a.c2.prev = some (optProps a, o)

theorem optInv_mount : OptInv optMount :=
  ⟨rfl, component2ThreeComp.render (optProps optMount), rfl⟩

theorem optStep_editName {a : OptApp} (h : OptInv a) (v : String) :
    (optStep a (.editName v)).c2 = a.c2 ∧ OptInv (optStep a (.editName v)) := by
  obtain ⟨hdep, o, hprev⟩ := h
  have hcond : a.memoDep = (handleEvent a.st (.editName v)).surname := hdep
  have hskip : memoStep component2ThreeComp a.c2
      ⟨(handleEvent a.st (.editName v)).surname, a.memoRef,
       dataContents (handleEvent a.st (.editName v)).surname, a.cbRef⟩ = a.c2 :=
    memoStep_skip hprev (by simp [component2ThreeComp, optProps, handleEvent])
  have hc2 : (optStep a (.editName v)).c2 = a.c2 := by
    rw [optStep, if_pos hcond]
    exact hskip
  refine ⟨hc2, ?_, ?_⟩
  · rw [optStep, if_pos hcond]
  · refine ⟨o, ?_⟩
    rw [hc2, hprev]
    rw [optStep, if_pos hcond]
    rfl

theorem optStep_inv {a : OptApp} (h : OptInv a) (e : Event) : OptInv (optStep a e) := by
  cases e with
  | editName v => exact (optStep_editName h v).2
  | editSurname v =>
      obtain ⟨hdep, o, hprev⟩ := h
      by_cases hv : a.memoDep = v
      · have hcond : a.memoDep = (handleEvent a.st (.editSurname v)).surname := hv
        have hsv : a.st.surname = v := hdep ▸ hv
        have hskip : memoStep component2ThreeComp a.c2
            ⟨(handleEvent a.st (.editSurname v)).surname, a.memoRef,
             dataContents (handleEvent a.st (.editSurname v)).surname, a.cbRef⟩ = a.c2 :=
          memoStep_skip hprev (by simp [component2ThreeComp, optProps, handleEvent, hsv])
        refine ⟨?_, o, ?_⟩
        · rw [optStep, if_pos hcond]
        · rw [optStep, if_pos hcond]
          show (memoStep component2ThreeComp a.c2 _).prev = _
          rw [hskip, hprev]
          simp [optProps, optStep, if_pos hcond, handleEvent, hsv]
      · have hcond : ¬ a.memoDep = (handleEvent a.st (.editSurname v)).surname := hv
        have hsv : ¬ a.st.surname = v := fun hh => hv (hdep ▸ hh)
        have hne : component2ThreeComp.propsEq (optProps a)
            ⟨(handleEvent a.st (.editSurname v)).surname, a.fresh,
             dataContents (handleEvent a.st (.editSurname v)).surname, a.cbRef⟩ = false := by
          simp [component2ThreeComp, optProps, handleEvent]
          intro hh
          exact absurd hh hsv
        refine ⟨?_, ?_⟩
        · rw [optStep, if_neg hcond]
        · rw [optStep, if_neg hcond]
          show ∃ o', (memoStep component2ThreeComp a.c2 _).prev = _
          rw [memoStep_rerender hprev hne]
          exact ⟨_, rfl⟩

/-- Invariant of the live one-prop app: `Component2`'s previous prop is the
current surname. -/
def SimpleInv (a : SimpleApp) : Prop :=
  ∃ o, a.c2.prev = some (a.st.surname, o)

theorem simpleInv_mount : SimpleInv simpleMount :=
  ⟨component2Comp.render "", rfl⟩

theorem simpleStep_editName {a : SimpleApp} (h : SimpleInv a) (v : String) :
    (simpleStep a (.editName v)).c2 = a.c2 ∧ SimpleInv (simpleStep a (.editName v)) := by
  obtain ⟨o, hprev⟩ := h
  have hskip : memoStep component2Comp a.c2
      (handleEvent a.st (.editName v)).surname = a.c2 :=
    memoStep_skip hprev (by simp [component2Comp, handleEvent])
  have hc2 : (simpleStep a (.editName v)).c2 = a.c2 := hskip
  exact ⟨hc2, o, by rw [hc2]; exact hprev⟩

theorem simpleStep_inv {a : SimpleApp} (h : SimpleInv a) (e : Event) :
    SimpleInv (simpleStep a e) := by
  cases e with
  | editName v => exact (simpleStep_editName h v).2
  | editSurname v =>
      obtain ⟨o, hprev⟩ := h
      by_cases hv : a.st.surname = v
      · have hskip : memoStep component2Comp a.c2
            (handleEvent a.st (.editSurname v)).surname = a.c2 :=
          memoStep_skip hprev (by simp [component2Comp, handleEvent, hv])
        refine ⟨o, ?_⟩
        show (memoStep component2Comp a.c2 _).prev = _
        rw [hskip, hprev, hv]
        rfl
      · have hne : component2Comp.propsEq a.st.surname
            (handleEvent a.st (.editSurname v)).surname = false := by
          simp [component2Comp, handleEvent]
          exact hv
        refine ⟨component2Comp.render v, ?_⟩
        show (memoStep component2Comp a.c2 _).prev = _
        rw [memoStep_rerender hprev hne]
        rfl

theorem optInv_run (es : List Event) : OptInv (optRun es) := by
  have key : ∀ (l : List Event) (a : OptApp), OptInv a → OptInv (l.foldl optStep a) := by
    intro l
    induction l with
    | nil => intro a h; exact h
    | cons e l ih => intro a h; exact ih _ (optStep_inv h e)
  exact key es optMount optInv_mount

theorem simpleInv_run (es : List Event) : SimpleInv (simpleRun es) := by
  have key : ∀ (l : List Event) (a : SimpleApp),
      SimpleInv a → SimpleInv (l.foldl simpleStep a) := by
    intro l
    induction l with
    | nil => intro a h; exact h
    | cons e l ih => intro a h; exact ih _ (simpleStep_inv h e)
  exact key es simpleMount simpleInv_mount

theorem optFold_editName {a : OptApp} (h : OptInv a) (vs : List String) :
    ((vs.map Event.editName).foldl optStep a).c2 = a.c2 := by
  induction vs generalizing a with
  | nil => rfl
  | cons v vs ih =>
      obtain ⟨hc2, hinv⟩ := optStep_editName h v
      rw [List.map_cons, List.foldl_cons, ih hinv, hc2]

theorem simpleFold_editName {a : SimpleApp} (h : SimpleInv a) (vs : List String) :
    ((vs.map Event.editName).foldl simpleStep a).c2 = a.c2 := by
  induction vs generalizing a with
  | nil => rfl
  | cons v vs ih =>
      obtain ⟨hc2, hinv⟩ := simpleStep_editName h v
      rw [List.map_cons, List.foldl_cons, ih hinv, hc2]

/-- C2: with memoization applied (`React.memo` around `Component2`, and in
the three-prop variant the `data` / `func` props stabilized by `useMemo` /
`useCallback`), any sequence of edits to the name input, starting from any
reachable state, leaves `Component2`'s render count unchanged — in the
optimized three-prop app and in the live one-prop app alike. -/
theorem name_edits_no_component2_rerender :
    ∀ (es : List Event) (vs : List String),
      (optRun (es ++ vs.map Event.editName)).c2.renders = (optRun es).c2.renders ∧
      (simpleRun (es ++ vs.map Event.editName)).c2.renders = (simpleRun es).c2.renders := by
  intro es vs
  constructor
  · have : optRun (es ++ vs.map Event.editName) =
        (vs.map Event.editName).foldl optStep (optRun es) := by
      rw [optRun, optRun, List.foldl_append]
    rw [this, optFold_editName (optInv_run es) vs]
  · have : simpleRun (es ++ vs.map Event.editName) =
        (vs.map Event.editName).foldl simpleStep (simpleRun es) := by
      rw [simpleRun, simpleRun, List.foldl_append]
    rw [this, simpleFold_editName (simpleInv_run es) vs]

/-- Invariant of the naive app: any previous `data` reference held by
`Component2`'s guard was allocated before the current fresh id, so the next
root render's fresh allocation can never compare reference-equal to it. -/
def NaiveInv (a : NaiveApp) : Prop :=
  ∀ q o, a.c2.prev = some (q, o) → q.dataRef < a.fresh

theorem naiveInv_mount : NaiveInv naiveMount := by
  intro q o h
  have h' : (⟨some ((⟨"", 0, [], 1⟩ : Component2Props),
      component2ThreeComp.render ⟨"", 0, [], 1⟩), 1⟩ : MemoInst Component2Props RenderedTree).prev
      = some (q, o) := h
  simp only [Option.some.injEq, Prod.mk.injEq] at h'
  rw [← h'.1]
  show (0 : Nat) < 2
  omega

theorem naiveStep_c2 {a : NaiveApp} (h : NaiveInv a) (e : Event) :
    (naiveStep a e).c2.renders = a.c2.renders + 1 ∧ NaiveInv (naiveStep a e) := by
  rcases hp : a.c2.prev with _ | ⟨q, o⟩
  · constructor
    · show (memoStep component2ThreeComp a.c2 _).renders = _
      rw [memoStep]
      rw [hp]
    · intro q o hq
      have hq' : (memoStep component2ThreeComp a.c2
          ⟨(handleEvent a.st e).surname, a.fresh, [], a.fresh + 1⟩).prev = some (q, o) := hq
      rw [memoStep, hp] at hq'
      simp only [Option.some.injEq, Prod.mk.injEq] at hq'
      rw [← hq'.1]
      show a.fresh < a.fresh + 2
      exact Nat.lt_add_of_pos_right (by decide)
  · have hlt : q.dataRef < a.fresh := h q o hp
    have hne : component2ThreeComp.propsEq q
        ⟨(handleEvent a.st e).surname, a.fresh, [], a.fresh + 1⟩ = false := by
      have hno : ¬ (q.surname = (handleEvent a.st e).surname ∧
          q.dataRef = a.fresh ∧ q.funcRef = a.fresh + 1) := by
        intro hh
        exact absurd (hh.2.1 ▸ hlt) (Nat.lt_irrefl _)
      simp [component2ThreeComp]
      intro h1 h2
      exact fun h3 => absurd ⟨h1, h2, h3⟩ hno
    constructor
    · show (memoStep component2ThreeComp a.c2 _).renders = _
      rw [memoStep_rerender hp hne]
    · intro q' o' hq
      have hq' : (memoStep component2ThreeComp a.c2
          ⟨(handleEvent a.st e).surname, a.fresh, [], a.fresh + 1⟩).prev = some (q', o') := hq
      rw [memoStep_rerender hp hne] at hq'
      simp only [Option.some.injEq, Prod.mk.injEq] at hq'
      rw [← hq'.1]
      show a.fresh < a.fresh + 2
      exact Nat.lt_add_of_pos_right (by decide)

theorem naiveInv_run (es : List Event) : NaiveInv (naiveRun es) := by
  have key : ∀ (l : List Event) (a : NaiveApp), NaiveInv a → NaiveInv (l.foldl naiveStep a) := by
    intro l
    induction l with
    | nil => intro a h; exact h
    | cons e l ih => intro a h; exact ih _ (naiveStep_c2 h e).2
  exact key es naiveMount naiveInv_mount

theorem naiveFold_renders {a : NaiveApp} (h : NaiveInv a) (l : List Event) :
    (l.foldl naiveStep a).c2.renders = a.c2.renders + l.length := by
  induction l generalizing a with
  | nil => rfl
  | cons e l ih =>
      obtain ⟨hr, hinv⟩ := naiveStep_c2 h e
      rw [List.foldl_cons, ih hinv, hr, List.length_cons]
      omega

theorem surname_const_under_editName (s : HomeState) (vs : List String) :
    ((vs.map Event.editName).foldl handleEvent s).surname = s.surname := by
  induction vs generalizing s with
  | nil => rfl
  | cons v vs ih => rw [List.map_cons, List.foldl_cons]; exact ih _

theorem naive_state_proj (es : List Event) :
    (naiveRun es).st = es.foldl handleEvent ⟨"", ""⟩ := by
  have key : ∀ (l : List Event) (a : NaiveApp),
      (l.foldl naiveStep a).st = l.foldl handleEvent a.st := by
    intro l
    induction l with
    | nil => intro a; rfl
    | cons e l ih => intro a; exact ih (naiveStep a e)
  exact key es naiveMount

/-- C4: in the naive variant, where the root allocates the structured `data`
and `func` props freshly on every render, a sequence of keystrokes in the name
field makes the memoized `Component2` re-render exactly once per keystroke —
its render count grows by the number of keystrokes — even though the surname
state cell does not change. -/
theorem naive_rerenders_per_keystroke :
    ∀ (es : List Event) (vs : List String),
      (naiveRun (es ++ vs.map Event.editName)).c2.renders =
        (naiveRun es).c2.renders + vs.length ∧
      (naiveRun (es ++ vs.map Event.editName)).st.surname = (naiveRun es).st.surname := by
  intro es vs
  constructor
  · have hsplit : naiveRun (es ++ vs.map Event.editName) =
        (vs.map Event.editName).foldl naiveStep (naiveRun es) := by
      rw [naiveRun, naiveRun, List.foldl_append]
    rw [hsplit, naiveFold_renders (naiveInv_run es) (vs.map Event.editName),
        List.length_map]
  · rw [naive_state_proj, naive_state_proj, List.foldl_append]
    exact surname_const_under_editName _ vs

theorem simpleFold_coherent :
    ∀ (es : List Event) (a : SimpleApp),
      Coherent component1Comp a.c1 → Coherent component2Comp a.c2 →
      Coherent component1Comp (es.foldl simpleStep a).c1 ∧
      Coherent component2Comp (es.foldl simpleStep a).c2 := by
  intro es
  induction es with
  | nil => intro a h1 h2; exact ⟨h1, h2⟩
  | cons e es ih =>
      intro a h1 h2
      exact ih (simpleStep a e) (memoStep_coherent h1 _) (memoStep_coherent h2 _)

theorem simpleRun_coherent (es : List Event) :
    Coherent component1Comp (simpleRun es).c1 ∧
    Coherent component2Comp (simpleRun es).c2 :=
  simpleFold_coherent es simpleMount
    (memoStep_coherent (coherent_empty _) _) (memoStep_coherent (coherent_empty _) _)

/-- C5: round-trip of an input value to the screen: after entering string `v`
into the name input (resp. surname input), `Component1` (resp. the one-prop
`Component2`) displays exactly the tree containing `Name: ` ++ `v` (resp.
`Surname: ` ++ `v`) — the identical string, with no transformation or
truncation between the state cell and the rendered text. -/
theorem roundtrip_display :
    ∀ (es : List Event) (v : String),
      display (simpleRun (es ++ [.editName v])).c1 =
        some ⟨.div, [⟨"label", "Component1: "⟩, ⟨"p", "Name: " ++ v⟩]⟩ ∧
      display (simpleRun (es ++ [.editSurname v])).c2 =
        some ⟨.div, [⟨"label", "Component2: "⟩, ⟨"p", "Surname: " ++ v⟩]⟩ := by
  intro es v
  constructor
  · have hsplit : simpleRun (es ++ [.editName v]) =
        simpleStep (simpleRun es) (.editName v) := by
      rw [simpleRun, simpleRun, List.foldl_append, List.foldl_cons, List.foldl_nil]
    rw [hsplit]
    exact memoStep_display compat_component1 (simpleRun_coherent es).1 v
  · have hsplit : simpleRun (es ++ [.editSurname v]) =
        simpleStep (simpleRun es) (.editSurname v) := by
      rw [simpleRun, simpleRun, List.foldl_append, List.foldl_cons, List.foldl_nil]
    rw [hsplit]
    exact memoStep_display compat_component2 (simpleRun_coherent es).2 v

/-- C8: both state cells of the root are created at mount holding the empty
string, and every write to them goes through the corresponding input's change
handler: the state reached by the app after any event sequence is exactly the
fold of `handleEvent` from `("", "")` — no other operation in the program
writes to `name` or `surname`. -/
theorem state_writes_only_handlers :
    (simpleRun []).st.name = "" ∧ (simpleRun []).st.surname = "" ∧
    ∀ (es : List Event), (simpleRun es).st = es.foldl handleEvent ⟨"", ""⟩ := by
  refine ⟨rfl, rfl, ?_⟩
  intro es
  have key : ∀ (l : List Event) (a : SimpleApp),
      (l.foldl simpleStep a).st = l.foldl handleEvent a.st := by
    intro l
    induction l with
    | nil => intro a; rfl
    | cons e l ih => intro a; exact ih (simpleStep a e)
  exact key es simpleMount
